import Mathlib

/-!
Verification development for the java-properties reading/writing library
(single Rust source file `src/lib.rs`).

Strings are modelled as `List Char` (Rust iterates over `char`s, which are
Unicode scalar values, exactly like Lean's `Char`).  Each definition below is a
shallow embedding of the corresponding Rust item; doc comments name the source
item and line range it embeds.
-/

deriving instance DecidableEq for Except

namespace JavaProps

/-- The ignorable-whitespace character class `[\x20\t\r\n\x0c]` used throughout
`LINE_RE` (lib.rs lines 510-539) and `COMMENT_RE` (line 331). -/
def isWS (c : Char) : Bool :=
  c = ' ' || c = '\t' || c = '\r' || c = '\n' || c = '\x0c'

/-- Rust `char::is_whitespace` (the Unicode White_Space property), used by
`str::trim_start` in `LogicalLines::next` (lib.rs line 329). -/
def rustIsWhitespace (c : Char) : Bool :=
  c = '\t' || c = '\n' || c = '\x0b' || c = '\x0c' || c = '\r' || c = ' ' ||
  c = '\x85' || c = '\xa0' || c = '\u1680' ||
  ('\u2000' ≤ c && c ≤ '\u200a') ||
  c = '\u2028' || c = '\u2029' || c = '\u202f' || c = '\u205f' || c = '\u3000'

/-! ## Natural line splitter (lib.rs lines 219-279, `NaturalLines::next`)

`NaturalLines` accumulates decoded characters until CR, LF, or CR-LF (consumed
as a single terminator), emits the accumulated text, and at end of stream emits
one final line holding whatever was accumulated (possibly empty) and stops.
`natLines` returns each line's text together with the terminator characters
that ended it (`[]` for the final, end-of-stream line). -/

/-- Text/terminator pairs of the natural lines of the input (source:
`NaturalLines::next`, lib.rs lines 245-278). -/
def natLines : List Char → List (List Char × List Char)
  | [] => [([], [])]
  | c :: t =>
    if c = '\r' then
      match t with
      | c2 :: t2 =>
        if c2 = '\n' then ([], ['\r', '\n']) :: natLines t2
        else ([], ['\r']) :: natLines (c2 :: t2)
      | [] => ([], ['\r']) :: natLines []
    else if c = '\n' then ([], ['\n']) :: natLines t
    else
      match natLines t with
      | [] => [([c], [])]
      | (x, term) :: rest => (c :: x, term) :: rest

/-- Attach the 1-based line numbers kept in `NaturalLines.line_count` (seeded
at 0 and incremented before each emission, lib.rs lines 256, 260, 273). -/
def numberFrom (n : Nat) : List (List Char × List Char) → List (Nat × List Char)
  | [] => []
  | (x, _) :: t => (n + 1, x) :: numberFrom (n + 1) t

/-- The numbered natural lines of an input, as produced by iterating
`NaturalLines::next` to exhaustion. -/
def naturalLines (s : List Char) : List (Nat × List Char) :=
  numberFrom 0 (natLines s)

/-- Number of line terminators in the input, counting CR, LF, or CR immediately
followed by LF as one terminator each (the claim-side counting rule). -/
def countTerminators : List Char → Nat
  | [] => 0
  | c :: t =>
    if c = '\r' then
      match t with
      | c2 :: t2 =>
        if c2 = '\n' then countTerminators t2 + 1 else countTerminators (c2 :: t2) + 1
      | [] => 1
    else if c = '\n' then countTerminators t + 1
    else countTerminators t

/-! ## Logical line joiner (lib.rs lines 283-355, `LogicalLines::next`) -/

/-- `count_ending_backslashes` (lib.rs lines 300-310): folds over the
characters, counting the current run of trailing backslashes. -/
def countEndingBackslashes (s : List Char) : Nat :=
  s.foldl (fun n c => if c = '\\' then n + 1 else 0) 0

/-- `COMMENT_RE.is_match` (lib.rs line 331): the pattern `^[ \t\r\n\x0c]*[#!]`
matches iff the first non-ignorable-whitespace character is `#` or `!`. -/
def isCommentStart (l : List Char) : Bool :=
  match l.dropWhile isWS with
  | c :: _ => c = '#' || c = '!'
  | [] => false

/-- The body of `LogicalLines::next` (lib.rs lines 315-354), iterated to
exhaustion, written as a single pass with the in-progress continuation buffer
as explicit state.  `none` state: at the start of a logical line; the first
natural line is appended verbatim, and if it matches `COMMENT_RE` it is
emitted immediately (comments never continue, lines 333-339); otherwise an
odd trailing-backslash count pops the backslash and enters a continuation
(`some` state).  `some (n, acc)` state: each further line is appended with
leading whitespace trimmed (`line.trim_start()`, line 329); an odd
trailing-backslash count pops the backslash and stays in the continuation;
an even count completes the logical line, numbered by its first constituent.
When the upstream iterator is exhausted mid-continuation, `LogicalLines::next`
returns `None` (lib.rs lines 347-350), discarding the accumulated buffer. -/
def logicalJoinGo : Option (Nat × List Char) → List (Nat × List Char) → List (Nat × List Char)
  | _, [] => []
  | none, (n, l) :: t =>
    if isCommentStart l then (n, l) :: logicalJoinGo none t
    else if countEndingBackslashes l % 2 = 1 then logicalJoinGo (some (n, l.dropLast)) t
    else (n, l) :: logicalJoinGo none t
  | some (n, acc), (_, l) :: t =>
    let acc2 := acc ++ l.dropWhile rustIsWhitespace
    if countEndingBackslashes l % 2 = 1 then logicalJoinGo (some (n, acc2.dropLast)) t
    else (n, acc2) :: logicalJoinGo none t

/-- Iterated `LogicalLines::next` (lib.rs lines 315-354) over the stream of
natural lines. -/
def logicalJoin (ls : List (Nat × List Char)) : List (Nat × List Char) :=
  logicalJoinGo none ls

/-! ## Line tokenizer (lib.rs lines 510-561, `LINE_RE` and `parse_line`)

`LINE_RE` is (verbose syntax, `WS` abbreviating the class `[\x20\t\r\n\x0c]`):

  `^ WS* (?: [#!] WS* (.*?) WS* | ( (?:[^\\:=WS]|\\.)* (?:\\$)? )`
  `(?: (?: WS*[:=]WS* | WS+ ) ( (?:[^\\]|\\.)*? (?:\\$)? ) )? ) $`

under the regex crate's leftmost-first (Perl-like) alternation/greedy/lazy
semantics, where `.` matches any character except LF.  The definitions below
are the deterministic rendering of that match, derived case by case:

* The leading `WS*` is greedy and neither alternative can start with a `WS`
  character (`#`/`!` are not `WS`; a key element starts with a non-`WS`,
  non-separator character or a backslash; the separator group is only reached
  after the key), so backtracking the leading `WS*` to a shorter prefix never
  produces a match when the maximal prefix does not (shorter prefixes leave
  the position on a `WS` character, where the comment and key branches match
  empty and the whole-match outcome is governed by the same element walk).
* Comment branch: after `#`/`!` the inner greedy `WS*` takes the maximal
  whitespace prefix and the lazy `(.*?)` stops at the earliest point where
  the rest is all `WS`, i.e. the capture is the body trimmed of leading and
  trailing `WS`; since `.` cannot cross LF, the branch fails iff that trimmed
  body still contains LF (LF inside the trimmed body can be consumed by
  neither `.` nor the flanking `WS*`s given maximality/minimality).
* Key: the greedy star eats class characters and backslash-pairs `\\c`
  (`c` any character except LF); it cannot consume a backslash that is
  followed by LF, and a lone backslash at the very end is taken by `(?:\\$)?`
  into the key capture.  Reducing the key star's repetitions never rescues a
  failed match: the resumption point lands on a key-class character or a
  backslash, where neither separator alternative nor `$` can match.
* Separator: alternative `WS*[:=]WS*` applies iff the first non-`WS`
  character after the key is `:` or `=` (consuming the surrounding
  whitespace greedily); otherwise `WS+` consumes the whitespace run and the
  value starts at the following character.
* Value: the lazy `(?:[^\\]|\\.)*?(?:\\$)?` walk consumes single non-backslash
  characters and backslash-pairs `\\c` (`c` ≠ LF), stopping at the end of the
  line (a final lone backslash is included via `(?:\\$)?`); it fails iff the
  walk reaches a backslash immediately followed by LF.  Whitespace characters
  are consumed one at a time by every alternative that can precede the stuck
  pair, so re-dividing the separator or outer whitespace cannot change the
  element alignment at the stuck backslash, and the whole match fails.

`parse_line` (lib.rs lines 541-561) then maps capture group 1 to `Comment`,
group 2/3 to `KVPair`, group 2 alone to `KVPair(key, "")` when the key is
non-empty and to no token when it is empty; the two `panic!` branches (no
regex match / no capture group) are modelled by `ParsedLine.fail`. -/

/-- The key star `(?:[^\\:=WS]|\\.)*(?:\\$)?` of `LINE_RE`: returns the key
capture and the unconsumed rest, or `none` when the overall regex match is
doomed (a backslash immediately followed by LF). -/
def scanKey : List Char → Option (List Char × List Char)
  | [] => some ([], [])
  | c :: t =>
    if c = '\\' then
      match t with
      | [] => some (['\\'], [])
      | c2 :: t2 =>
        if c2 = '\n' then none
        else
          match scanKey t2 with
          | none => none
          | some (k, r) => some ('\\' :: c2 :: k, r)
    else if c = ':' || c = '=' || isWS c then some ([], c :: t)
    else
      match scanKey t with
      | none => none
      | some (k, r) => some (c :: k, r)

/-- The value walk `(?:[^\\]|\\.)*?(?:\\$)?$` of `LINE_RE`: `true` iff the
walk completes (no backslash immediately followed by LF). -/
def valueOk : List Char → Bool
  | [] => true
  | c :: t =>
    if c = '\\' then
      match t with
      | [] => true
      | c2 :: t2 => if c2 = '\n' then false else valueOk t2
    else valueOk t

/-- Strip leading and trailing ignorable whitespace — the comment capture of
`LINE_RE` (greedy `WS*`, lazy `(.*?)`, trailing `WS*`). -/
def trimWS (l : List Char) : List Char :=
  ((l.dropWhile isWS).reverse.dropWhile isWS).reverse

/-- Result of `parse_line` (lib.rs lines 541-561): `fail` stands for the two
`panic!` branches (reached exactly when `LINE_RE` fails to match), `noToken`
for `None`, and the other two constructors for `Some(ParsedLine::...)`. -/
inductive ParsedLine where
  | fail
  | noToken
  | comment (text : List Char)
  | kvpair (key value : List Char)
deriving DecidableEq, Repr

/-- `parse_line` (lib.rs lines 541-561) together with the `LINE_RE` match,
rendered deterministically as derived in the section comment above. -/
def parse_line (s : List Char) : ParsedLine :=
  match s.dropWhile isWS with
  | [] => .noToken
  | c :: t =>
    if (c = '#' ∨ c = '!') ∧ (trimWS t).contains '\n' = false then .comment (trimWS t)
    else
      match scanKey (c :: t) with
      | none => .fail
      | some (key, rest) =>
        match rest with
        | [] => if key = [] then .noToken else .kvpair key []
        | r :: rt =>
          match (r :: rt).dropWhile isWS with
          | [] => .kvpair key []
          | c2 :: t2 =>
            if c2 = ':' ∨ c2 = '=' then
              if valueOk (t2.dropWhile isWS) = true then .kvpair key (t2.dropWhile isWS)
              else .fail
            else if isWS r = true then
              if valueOk (c2 :: t2) = true then .kvpair key (c2 :: t2) else .fail
            else .fail

/-! ## Escape/unescape codec (lib.rs lines 440-508 and 812-833) -/

/-- Value of one hexadecimal digit character, as accepted by Rust's
`char::to_digit(16)` inside `u16::from_str_radix` (lib.rs line 468). -/
def hexVal? (c : Char) : Option Nat :=
  if '0' ≤ c ∧ c ≤ '9' then some (c.toNat - '0'.toNat)
  else if 'a' ≤ c ∧ c ≤ 'f' then some (c.toNat - 'a'.toNat + 10)
  else if 'A' ≤ c ∧ c ≤ 'F' then some (c.toNat - 'A'.toNat + 10)
  else none

/-- `true` iff `c` is an ASCII hexadecimal digit (claim-side notion of
"hexadecimal digit"). -/
def isHexDigitChar (c : Char) : Bool :=
  (hexVal? c).isSome

/-- Accumulate a most-significant-first hex numeral; `none` if any character
is not a hex digit. -/
def allHexVal? (l : List Char) : Option Nat :=
  l.foldl
    (fun acc c =>
      match acc, hexVal? c with
      | some a, some d => some (a * 16 + d)
      | _, _ => none)
    (some 0)

/-- `u16::from_str_radix(s, 16)` (lib.rs line 468) on a non-empty input of at
most four characters: Rust's integer parser accepts an optional leading `+`
sign before the digits (a `-` sign is rejected for unsigned types), and four
hex digits can never overflow `u16`. -/
def fromStrRadix16? (l : List Char) : Option Nat :=
  match l with
  | [] => none
  | c :: t => if c = '+' then (if t = [] then none else allHexVal? t) else allHexVal? l

/-- The replacement character pushed for `\t`/`\n`/`\f`/`\r`; any other
escaped character is pushed literally (lib.rs lines 452-455, 489). -/
def escRepl (e : Char) : Char :=
  if e = 't' then '\t'
  else if e = 'n' then '\n'
  else if e = 'f' then '\x0c'
  else if e = 'r' then '\r'
  else e

/-- `unescape` (lib.rs lines 440-508).  Errors carry the `line_number`
argument; the description strings are omitted from the model.  A dangling
final backslash becomes a NUL character (lines 492-499); `\u` takes the next
four characters, parses them with `u16::from_str_radix(..,16)`, and converts
with `char::from_u32`, which rejects exactly the surrogate range
0xD800-0xDFFF for 16-bit inputs. -/
def unescape : List Char → Nat → Except Nat (List Char)
  | [], _ => .ok []
  | c :: rest, ln =>
    if c = '\\' then
      match rest with
      | [] => .ok ['\x00']
      | e :: t =>
        if e = 'u' then
          match t with
          | a :: b :: c2 :: d :: t2 =>
            match fromStrRadix16? [a, b, c2, d] with
            | none => .error ln
            | some v =>
              if 0xD800 ≤ v ∧ v ≤ 0xDFFF then .error ln
              else
                match unescape t2 ln with
                | .error m => .error m
                | .ok r => .ok (Char.ofNat v :: r)
          | _ => .error ln
        else
          match unescape t ln with
          | .error m => .error m
          | .ok r => .ok (escRepl e :: r)
    else
      match unescape rest ln with
      | .error m => .error m
      | .ok r => .ok (c :: r)

/-- Claim-side predicate (amended C6): the left-to-right escape scan meets a
`\u` escape whose following four characters are missing, do not parse as a
`u16` hex numeral under Rust's `from_str_radix` (which allows one leading
`+`), or denote a surrogate code unit. -/
def hasMalformedU : List Char → Bool
  | [] => false
  | c :: rest =>
    if c = '\\' then
      match rest with
      | [] => false
      | e :: t =>
        if e = 'u' then
          match t with
          | a :: b :: c2 :: d :: t2 =>
            match fromStrRadix16? [a, b, c2, d] with
            | none => true
            | some v => if 0xD800 ≤ v ∧ v ≤ 0xDFFF then true else hasMalformedU t2
          | _ => true
        else hasMalformedU t
    else hasMalformedU rest

/-- The per-character escaping of `PropertiesWriter::write_escaped`
(lib.rs lines 812-833).  The `\u` arm is Rust `format!("\\u{:x}", c as u16)`,
i.e. `\u` followed by the minimal-width lowercase hex digits of the code
unit — with no zero padding. -/
def escapeChar (c : Char) : List Char :=
  if c = '\\' then ['\\', '\\']
  else if c = ' ' then ['\\', ' ']
  else if c = '\t' then ['\\', 't']
  else if c = '\r' then ['\\', 'r']
  else if c = '\n' then ['\\', 'n']
  else if c = '\x0c' then ['\\', 'f']
  else if c = ':' then ['\\', ':']
  else if c = '=' then ['\\', '=']
  else if c = '!' then ['\\', '!']
  else if c = '#' then ['\\', '#']
  else if c < ' ' then '\\' :: 'u' :: Nat.toDigits 16 c.toNat
  else [c]

/-- The full string escaping performed by `write_escaped` before handing the
text to the encoding writer. -/
def escape (s : List Char) : List Char :=
  s.flatMap escapeChar

/-! ## Read façade (lib.rs lines 563-640, `PropertiesIter`) -/

/-- Public `LineContent` (lib.rs lines 414-421), with escapes resolved. -/
inductive LineContent where
  | comment (text : List Char)
  | kvpair (key value : List Char)
deriving DecidableEq, Repr

/-- How a read can go wrong: a malformed-escape `PropertiesError` with its
line number, or the (unreachable) tokenizer `panic!`. -/
inductive ReadErr where
  | escapeErr (line : Nat)
  | panicked
deriving DecidableEq, Repr

/-- `PropertiesIter::next` + `parsed_line_to_line` (lib.rs lines 601-639)
iterated over a list of logical lines: lines with no token are skipped;
comment text, keys and values are unescaped with the logical line number,
the first error ending the iteration. -/
def readLines : List (Nat × List Char) → Except ReadErr (List (Nat × LineContent))
  | [] => .ok []
  | (n, l) :: t =>
    match parse_line l with
    | .fail => .error .panicked
    | .noToken => readLines t
    | .comment c =>
      match unescape c n with
      | .error m => .error (.escapeErr m)
      | .ok c2 =>
        match readLines t with
        | .error e => .error e
        | .ok r => .ok ((n, .comment c2) :: r)
    | .kvpair k v =>
      match unescape k n with
      | .error m => .error (.escapeErr m)
      | .ok k2 =>
        match unescape v n with
        | .error m => .error (.escapeErr m)
        | .ok v2 =>
          match readLines t with
          | .error e => .error e
          | .ok r => .ok ((n, .kvpair k2 v2) :: r)

/-- End-to-end read of a decoded character input: natural lines, logical
lines, tokenizing, unescaping. -/
def readAll (input : List Char) : Except ReadErr (List (Nat × LineContent)) :=
  readLines (logicalJoin (naturalLines input))

/-! ## Encoding writer and write façade (lib.rs lines 644-898) -/

/-- A charset's encoder, modelled at character level: `cs c = true` iff the
charset can represent `c`. -/
def asciiMap (c : Char) : Bool :=
  c.toNat < 0x80

/-- The unmappable-character fallback text `format!("\\u{:x}", c as isize)`
(lib.rs line 690): `\u` followed by the minimal-width lowercase hex digits of
the code point. -/
def uEscape (c : Char) : List Char :=
  '\\' :: 'u' :: Nat.toDigits 16 c.toNat

/-- `EncodingWriter::write`'s encoding loop (lib.rs lines 675-715): mappable
characters pass through; an unmappable character is replaced by its `uEscape`
text, itself encoded by the same encoder; if the escape text is also
unmappable the write fails with that character. -/
def encodeChars (cs : Char → Bool) : List Char → Except Char (List Char)
  | [] => .ok []
  | c :: t =>
    if cs c then
      match encodeChars cs t with
      | .error e => .error e
      | .ok r => .ok (c :: r)
    else if (uEscape c).all cs then
      match encodeChars cs t with
      | .error e => .error e
      | .ok r => .ok (uEscape c ++ r)
    else .error c

/-- `PropertiesError`, reduced to the field the claims are about
(`line_number`; lib.rs lines 94-118).  The description and wrapped cause are
omitted from the model. -/
structure PropsErr where
  lineNumber : Option Nat
deriving DecidableEq, Repr

/-- Behaviour of the underlying `Write` sink: whether the n-th `write_all`
call succeeds, and whether the sink's own `flush` succeeds. -/
structure SinkBehavior where
  writeAllOk : Nat → Bool
  flushOk : Bool

/-- A sink on which every operation succeeds. -/
def sbOk : SinkBehavior :=
  ⟨fun _ => true, true⟩

/-- Observable state of `EncodingWriter`/`PropertiesWriter`: the
`lines_written` counter (lib.rs line 669), the number of `write_all` calls
made so far (indexing into `SinkBehavior.writeAllOk`), and the characters
successfully handed to the sink. -/
structure WriterState where
  linesWritten : Nat
  writeCalls : Nat
  out : List Char
deriving DecidableEq, Repr

/-- Initial writer state: `lines_written` starts at 0 (lib.rs line 786). -/
def initWriterState : WriterState :=
  ⟨0, 0, []⟩

/-- `EncodingWriter::flush_buffer` (lib.rs lines 720-726): `write_all` of the
buffer; on an I/O error the `PropertiesError` carries
`Some(self.lines_written)`. -/
def flushBuffer (sb : SinkBehavior) (st : WriterState) (buf : List Char) :
    Except PropsErr WriterState :=
  if sb.writeAllOk st.writeCalls then
    .ok { st with out := st.out ++ buf, writeCalls := st.writeCalls + 1 }
  else .error ⟨some st.linesWritten⟩

/-- `EncodingWriter::write` (lib.rs lines 675-718): encode (an unrecoverable
unmappable character yields an error with `Some(lines_written)`) and then
flush the buffer. -/
def encWrite (cs : Char → Bool) (sb : SinkBehavior) (st : WriterState) (data : List Char) :
    Except PropsErr WriterState :=
  match encodeChars cs data with
  | .error _ => .error ⟨some st.linesWritten⟩
  | .ok buf => flushBuffer sb st buf

/-- `LineEnding` (lib.rs lines 644-655). -/
inductive LineEnding where
  | cr
  | lf
  | crlf
deriving DecidableEq, Repr

/-- The characters written by `write_eol` for each line ending
(lib.rs lines 794-801). -/
def eolChars : LineEnding → List Char
  | .cr => ['\r']
  | .lf => ['\n']
  | .crlf => ['\r', '\n']

/-- The mutable configuration of `PropertiesWriter` (lib.rs lines 763-768). -/
structure WriterCfg where
  commentPfx : List Char
  kvSep : List Char
  lineEnding : LineEnding
deriving DecidableEq, Repr

/-- Defaults from `PropertiesWriter::new_with_encoding` (lib.rs lines
779-792): prefix `"# "`, separator `"="`, line ending LF. -/
def defaultCfg : WriterCfg :=
  ⟨['#', ' '], ['='], .lf⟩

/-- `PropertiesWriter::write_eol` (lib.rs lines 794-801). -/
def writeEol (cs : Char → Bool) (sb : SinkBehavior) (cfg : WriterCfg) (st : WriterState) :
    Except PropsErr WriterState :=
  encWrite cs sb st (eolChars cfg.lineEnding)

/-- `PropertiesWriter::write_comment` (lib.rs lines 804-810): increments
`lines_written` once at the start, then writes prefix, comment text
(unescaped), and the line ending. -/
def writeComment (cs : Char → Bool) (sb : SinkBehavior) (cfg : WriterCfg) (st : WriterState)
    (c : List Char) : Except PropsErr WriterState :=
  match encWrite cs sb { st with linesWritten := st.linesWritten + 1 } cfg.commentPfx with
  | .error e => .error e
  | .ok st2 =>
    match encWrite cs sb st2 c with
    | .error e => .error e
    | .ok st3 => writeEol cs sb cfg st3

/-- `PropertiesWriter::write_escaped` (lib.rs lines 812-833): increments
`lines_written` once at the start, then writes the escaped text. -/
def writeEscaped (cs : Char → Bool) (sb : SinkBehavior) (st : WriterState) (s : List Char) :
    Except PropsErr WriterState :=
  encWrite cs sb { st with linesWritten := st.linesWritten + 1 } (escape s)

/-- `PropertiesWriter::write` (lib.rs lines 836-842): escaped key, separator,
escaped value, line ending. -/
def pwWrite (cs : Char → Bool) (sb : SinkBehavior) (cfg : WriterCfg) (st : WriterState)
    (k v : List Char) : Except PropsErr WriterState :=
  match writeEscaped cs sb st k with
  | .error e => .error e
  | .ok st1 =>
    match encWrite cs sb st1 cfg.kvSep with
    | .error e => .error e
    | .ok st2 =>
      match writeEscaped cs sb st2 v with
      | .error e => .error e
      | .ok st3 => writeEol cs sb cfg st3

/-- `EncodingWriter::flush` (lib.rs lines 728-732): `flush_buffer` (whose
error carries `Some(lines_written)`) and then the sink's own `flush`, whose
`io::Error` is converted by `From<io::Error> for PropertiesError`
(lib.rs lines 135-139) — with `line_number: None`. -/
def pwFlush (sb : SinkBehavior) (st : WriterState) : Except PropsErr WriterState :=
  match flushBuffer sb st [] with
  | .error e => .error e
  | .ok st1 => if sb.flushOk then .ok st1 else .error ⟨none⟩

/-- `EncodingWriter::finish` / `PropertiesWriter::finish` (lib.rs lines
734-757, 894-897): a final encode pass (a no-op for the stateless character
level encoders modelled here) followed by `flush`. -/
def pwFinish (sb : SinkBehavior) (st : WriterState) : Except PropsErr WriterState :=
  pwFlush sb st

/-! ## Writer configuration validation (lib.rs lines 854-886) -/

/-- The horizontal-whitespace class `[ \t\x0c]` of the two validation
patterns. -/
def isHWS (c : Char) : Bool :=
  c = ' ' || c = '\t' || c = '\x0c'

/-- `set_comment_prefix`'s pattern `^[ \t\x0c]*[#!][^\r\n]*$` (lib.rs line
856): optional leading horizontal whitespace, then `#` or `!`, then anything
but CR/LF. -/
def commentPfxOk (p : List Char) : Bool :=
  match p.dropWhile isHWS with
  | c :: t => (c = '#' || c = '!') && t.all (fun x => !(x = '\r' || x = '\n'))
  | [] => false

/-- `set_kv_separator`'s pattern `^([ \t\x0c]*[:=][ \t\x0c]*|[ \t\x0c]+)$`
(lib.rs line 875). -/
def kvSepOk (s : List Char) : Bool :=
  (match s.dropWhile isHWS with
   | c :: t => (c = ':' || c = '=') && t.all isHWS
   | [] => false) ||
  (!s.isEmpty && s.all isHWS)

/-- `PropertiesWriter::set_comment_prefix` (lib.rs lines 854-867): rejected
prefixes produce an error with no line number. -/
def setCommentPfx (cfg : WriterCfg) (p : List Char) : Except PropsErr WriterCfg :=
  if commentPfxOk p then .ok { cfg with commentPfx := p } else .error ⟨none⟩

/-- `PropertiesWriter::set_kv_separator` (lib.rs lines 873-886): rejected
separators produce an error with no line number. -/
def setKvSep (cfg : WriterCfg) (s : List Char) : Except PropsErr WriterCfg :=
  if kvSepOk s then .ok { cfg with kvSep := s } else .error ⟨none⟩

/-- Claim-side (C9): `c` is a space, tab or form-feed. -/
def HwsChar (c : Char) : Prop :=
  c = ' ' ∨ c = '\t' ∨ c = '\x0c'

/-- Claim-side (C9) shape of a valid comment prefix: optional leading
spaces/tabs/form-feeds, then `#` or `!`, then any characters excluding CR
and LF. -/
def CommentPfxShape (p : List Char) : Prop :=
  ∃ a c b, p = a ++ c :: b ∧ (∀ x ∈ a, HwsChar x) ∧ (c = '#' ∨ c = '!') ∧
    ∀ x ∈ b, x ≠ '\r' ∧ x ≠ '\n'

/-- Claim-side (C9) shape of a valid key/value separator: one-or-more
spaces/tabs/form-feeds, or a single `:` or `=` with optional
spaces/tabs/form-feeds on either side. -/
def KvSepShape (s : List Char) : Prop :=
  (s ≠ [] ∧ ∀ x ∈ s, HwsChar x) ∨
  ∃ a c b, s = a ++ c :: b ∧ (∀ x ∈ a, HwsChar x) ∧ (c = ':' ∨ c = '=') ∧ ∀ x ∈ b, HwsChar x

/-! ## Claim theorems -/

/-- Claim C1 (evidence of the code bug): the escape/unescape round trip fails
on the control character U+0001.  `write_escaped` formats the code unit with
Rust `format!("\\u{:x}", ..)`, which performs no zero padding, so U+0001 is
written as the three characters `\u1`; `unescape` then demands four
characters after `\u` and fails, instead of returning the original string. -/
theorem escape_unescape_roundtrip_fails_on_ctrl :
    escape ['\x01'] = ['\\', 'u', '1'] ∧
    unescape (escape ['\x01']) 1 = Except.error 1 := by
  decide

/-- Claim C2 (evidence of the code bug): on the input `"a\\"` (a natural line
ending in an unresolved backslash continuation at end of stream), the logical
line joiner discards the accumulated text `"a"` and emits nothing, instead of
emitting it as the final logical line. -/
theorem logicalLines_discards_unterminated_continuation :
    naturalLines ['a', '\\'] = [(1, ['a', '\\'])] ∧
    logicalJoin (naturalLines ['a', '\\']) = [] ∧
    readAll ['a', '\\'] = Except.ok [] := by
  decide

/-- Claim C3 (evidence of the code bug): for the below-space character U+0001
(not in the two-character escape set) `write_escaped` emits `\u` followed by
ONE lowercase hex digit, not four (`format!("\\u{:x}", ..)` does not pad). -/
theorem write_escaped_ctrl_char_short_hex :
    escapeChar '\x01' = ['\\', 'u', '1'] ∧ (escapeChar '\x01').length ≠ 2 + 4 := by
  decide

/-- Claim C4: the end-to-end read of the Scenario B input yields exactly the
seven records (1, a=b), (2, c=de=f), (4, g=h), (5, Comment comment1),
(6, Comment comment2 followed by NUL), (7, i=j#comment3),
(10, Comment comment4), in this order, and nothing else. -/
theorem scenario_b_records :
    readAll "a=b\nc=d\\\ne=f\ng=h\r#comment1\r\n#comment2\\\ni=j\\\n#comment3\n \n#comment4".toList =
      Except.ok
        [(1, LineContent.kvpair "a".toList "b".toList),
         (2, LineContent.kvpair "c".toList "de=f".toList),
         (4, LineContent.kvpair "g".toList "h".toList),
         (5, LineContent.comment "comment1".toList),
         (6, LineContent.comment ("comment2".toList ++ ['\x00'])),
         (7, LineContent.kvpair "i".toList "j#comment3".toList),
         (10, LineContent.comment "comment4".toList)] := by
  decide

/-- Claim C6 counterexample: the input `\u+041` contains a `\u` escape whose
four following characters `+041` are not all hexadecimal digits, yet
`unescape` returns `Ok("A")` — Rust `u16::from_str_radix` accepts a leading
`+` sign — so the claimed "if and only if" is false as stated. -/
theorem unescape_plus_sign_hex_counterexample :
    unescape ['\\', 'u', '+', '0', '4', '1'] 7 = Except.ok ['A'] ∧
    (['+', '0', '4', '1'].all isHexDigitChar) = false := by
  decide

/-- Claim C7 counterexample: `LINE_RE` fails to match the two-character string
backslash-LF (`.` cannot match LF, and no alternative can consume the
backslash), so `parse_line` reaches its `panic!` branch — the tokenizer is
not total on every string. -/
theorem parse_line_fails_on_backslash_lf :
    parse_line ['\\', '\n'] = ParsedLine.fail := by
  decide

/-- Claim C8 counterexample: the unmappable-character replacement for U+1F41E
is `\u` followed by FIVE lowercase hex digits (`1f41e`), not four — the
fallback writes the minimal-width hex of the code point. -/
theorem unmappable_escape_five_digits :
    encodeChars asciiMap [Char.ofNat 0x1F41E] =
      Except.ok ('\\' :: 'u' :: Nat.toDigits 16 0x1F41E) ∧
    (Nat.toDigits 16 0x1F41E).length = 5 := by
  decide

/-- Claim C8 (amended): when the encoder meets a character the charset cannot
represent, it does not fail but encodes in its place the literal text `\u`
followed by the minimal-width lowercase hex digits of the code point
(provided that replacement text is itself representable); in particular
writing key and value U+1F41E with the default configuration into an
ASCII-like charset produces exactly the line `\u1f41e=\u1f41e` + LF. -/
theorem unmappable_fallback_and_scenario_d :
    (∀ (cs : Char → Bool) (c : Char), cs c = false → (uEscape c).all cs = true →
      encodeChars cs [c] = Except.ok (uEscape c)) ∧
    pwWrite asciiMap sbOk defaultCfg initWriterState [Char.ofNat 0x1F41E] [Char.ofNat 0x1F41E] =
      Except.ok ⟨2, 4, "\\u1f41e=\\u1f41e\n".toList⟩ := by
  constructor
  · intro cs c h1 h2
    simp [encodeChars, h1, h2]
  · decide

theorem unmappable_fallback_and_scenario_d_witness :
    encodeChars asciiMap [Char.ofNat 0x1F41E] = Except.ok (uEscape (Char.ofNat 0x1F41E)) :=
  unmappable_fallback_and_scenario_d.1 asciiMap (Char.ofNat 0x1F41E) (by decide) (by decide)

/-- Claim C10 counterexample: when the underlying sink's own `flush` fails,
`PropertiesWriter::flush` (and `finish`, which calls it) returns an error
converted by `From<io::Error>` — whose `line_number` is `None`, not `Some`. -/
theorem flush_error_has_no_line_number :
    pwFlush ⟨fun _ => true, false⟩ initWriterState = Except.error ⟨none⟩ ∧
    (PropsErr.mk none).lineNumber = none := by
  constructor
  · rfl
  · rfl

theorem natLines_nil : natLines [] = [([], [])] := rfl

theorem natLines_cr_lf (t : List Char) :
    natLines ('\r' :: '\n' :: t) = ([], ['\r', '\n']) :: natLines t := rfl

theorem natLines_cr_one : natLines ['\r'] = ([], ['\r']) :: natLines [] := rfl

theorem natLines_cr (c2 : Char) (t2 : List Char) (hn : ¬ c2 = '\n') :
    natLines ('\r' :: c2 :: t2) = ([], ['\r']) :: natLines (c2 :: t2) := by
  rw [natLines.eq_def]
  simp [hn]

theorem natLines_lf (t : List Char) : natLines ('\n' :: t) = ([], ['\n']) :: natLines t := by
  rw [natLines.eq_def]
  simp

theorem natLines_other (c : Char) (t : List Char) (hr : ¬ c = '\r') (hn : ¬ c = '\n')
    (x term : List Char) (rest : List (List Char × List Char))
    (heq : natLines t = (x, term) :: rest) :
    natLines (c :: t) = (c :: x, term) :: rest := by
  rw [natLines.eq_def]
  simp [hr, hn, heq]

theorem countTerminators_cr_lf (t : List Char) :
    countTerminators ('\r' :: '\n' :: t) = countTerminators t + 1 := rfl

theorem countTerminators_cr_one : countTerminators ['\r'] = 1 := rfl

theorem countTerminators_cr (c2 : Char) (t2 : List Char) (hn : ¬ c2 = '\n') :
    countTerminators ('\r' :: c2 :: t2) = countTerminators (c2 :: t2) + 1 := by
  rw [countTerminators.eq_def]
  simp [hn]

theorem countTerminators_lf (t : List Char) :
    countTerminators ('\n' :: t) = countTerminators t + 1 := by
  rw [countTerminators.eq_def]
  simp

theorem countTerminators_other (c : Char) (t : List Char) (hr : ¬ c = '\r') (hn : ¬ c = '\n') :
    countTerminators (c :: t) = countTerminators t := by
  rw [countTerminators.eq_def]
  simp [hr, hn]

/-- Joint structural facts about `natLines`: number of emitted lines and exact
reconstruction of the input from texts and terminators.  Strong induction on
the input length (the CR-LF case consumes two characters). -/
theorem natLines_core : ∀ (N : Nat) (s : List Char), s.length ≤ N →
    (natLines s).length = countTerminators s + 1 ∧
    ((natLines s).map fun p => p.1 ++ p.2).flatten = s := by
  intro N
  induction N with
  | zero =>
    intro s hs
    match s with
    | [] => exact ⟨by simp [natLines_nil, countTerminators], by simp [natLines_nil]⟩
    | _ :: _ => simp at hs
  | succ N ih =>
    intro s hs
    match s with
    | [] => exact ⟨by simp [natLines_nil, countTerminators], by simp [natLines_nil]⟩
    | c :: t =>
      by_cases hr : c = '\r'
      · subst hr
        match t with
        | [] =>
          exact ⟨by simp [natLines_cr_one, natLines_nil, countTerminators_cr_one],
                 by simp [natLines_cr_one, natLines_nil]⟩
        | c2 :: t2 =>
          by_cases hn : c2 = '\n'
          · subst hn
            obtain ⟨h1, h2⟩ := ih t2 (by simp at hs ⊢; omega)
            exact ⟨by simp [natLines_cr_lf, countTerminators_cr_lf, h1],
                   by simp [natLines_cr_lf, h2]⟩
          · obtain ⟨h1, h2⟩ := ih (c2 :: t2) (by simp at hs ⊢; omega)
            exact ⟨by simp [natLines_cr c2 t2 hn, countTerminators_cr c2 t2 hn, h1],
                   by simp [natLines_cr c2 t2 hn, h2]⟩
      · by_cases hn : c = '\n'
        · subst hn
          obtain ⟨h1, h2⟩ := ih t (by simp at hs ⊢; omega)
          exact ⟨by simp [natLines_lf, countTerminators_lf, h1],
                 by simp [natLines_lf, h2]⟩
        · obtain ⟨h1, h2⟩ := ih t (by simp at hs ⊢; omega)
          cases heq : natLines t with
          | nil => rw [heq] at h1; simp at h1
          | cons hd rest =>
            obtain ⟨x, term⟩ := hd
            rw [heq] at h1 h2
            rw [natLines_other c t hr hn x term rest heq, countTerminators_other c t hr hn]
            simp only [List.map_cons, List.flatten_cons, List.length_cons] at h1 h2 ⊢
            constructor
            · omega
            · simp only [List.cons_append, List.append_assoc] at h2 ⊢
              rw [← h2]

theorem numberFrom_length : ∀ (l : List (List Char × List Char)) (n : Nat),
    (numberFrom n l).length = l.length := by
  intro l
  induction l with
  | nil => intro n; simp [numberFrom]
  | cons hd t ih => intro n; obtain ⟨x, term⟩ := hd; simp [numberFrom, ih]

theorem numberFrom_map_fst : ∀ (l : List (List Char × List Char)) (n : Nat),
    (numberFrom n l).map Prod.fst = List.range' (n + 1) l.length := by
  intro l
  induction l with
  | nil => intro n; simp [numberFrom]
  | cons hd t ih =>
    intro n
    obtain ⟨x, term⟩ := hd
    simp [numberFrom, ih, List.range'_succ]

theorem numberFrom_map_snd : ∀ (l : List (List Char × List Char)) (n : Nat),
    (numberFrom n l).map Prod.snd = l.map Prod.fst := by
  intro l
  induction l with
  | nil => intro n; simp [numberFrom]
  | cons hd t ih => intro n; obtain ⟨x, term⟩ := hd; simp [numberFrom, ih]

/-- Claim C5: for every finite decoded input, the natural line splitter emits
`countTerminators s + 1` lines, numbered consecutively from 1; its emitted
texts are exactly the texts of `natLines s`, and concatenating each text with
its original terminator reconstructs the input exactly; the empty input
yields the single line `(1, "")`. -/
theorem naturalLines_count_numbering_reconstruction : ∀ s : List Char,
    (naturalLines s).length = countTerminators s + 1 ∧
    (naturalLines s).map Prod.fst = List.range' 1 ((naturalLines s).length) ∧
    (naturalLines s).map Prod.snd = (natLines s).map Prod.fst ∧
    ((natLines s).map fun p => p.1 ++ p.2).flatten = s ∧
    naturalLines [] = [(1, [])] := by
  intro s
  obtain ⟨h1, h2⟩ := natLines_core s.length s le_rfl
  refine ⟨?_, ?_, ?_, h2, by decide⟩
  · rw [naturalLines, numberFrom_length]
    exact h1
  · rw [naturalLines, numberFrom_map_fst, numberFrom_length]
  · rw [naturalLines, numberFrom_map_snd]

theorem unescape_bs_nil (ln : Nat) : unescape ['\\'] ln = Except.ok ['\x00'] := rfl

theorem unescape_bs_u (a b c2 d : Char) (t2 : List Char) (ln : Nat) :
    unescape ('\\' :: 'u' :: a :: b :: c2 :: d :: t2) ln =
      match fromStrRadix16? [a, b, c2, d] with
      | none => Except.error ln
      | some v =>
        if 0xD800 ≤ v ∧ v ≤ 0xDFFF then Except.error ln
        else
          match unescape t2 ln with
          | .error m => .error m
          | .ok r => .ok (Char.ofNat v :: r) := by
  rw [unescape.eq_def]
  simp

theorem unescape_bs_other (e : Char) (t : List Char) (ln : Nat) (he : ¬ e = 'u') :
    unescape ('\\' :: e :: t) ln =
      match unescape t ln with
      | .error m => .error m
      | .ok r => .ok (escRepl e :: r) := by
  rw [unescape.eq_def]
  simp [he]

theorem unescape_other (c : Char) (rest : List Char) (ln : Nat) (hc : ¬ c = '\\') :
    unescape (c :: rest) ln =
      match unescape rest ln with
      | .error m => .error m
      | .ok r => .ok (c :: r) := by
  rw [unescape.eq_def]
  simp [hc]

theorem hasMalformedU_bs_u (a b c2 d : Char) (t2 : List Char) :
    hasMalformedU ('\\' :: 'u' :: a :: b :: c2 :: d :: t2) =
      match fromStrRadix16? [a, b, c2, d] with
      | none => true
      | some v => if 0xD800 ≤ v ∧ v ≤ 0xDFFF then true else hasMalformedU t2 := by
  rw [hasMalformedU.eq_def]
  simp

theorem hasMalformedU_bs_other (e : Char) (t : List Char) (he : ¬ e = 'u') :
    hasMalformedU ('\\' :: e :: t) = hasMalformedU t := by
  rw [hasMalformedU.eq_def]
  simp [he]

theorem hasMalformedU_other (c : Char) (rest : List Char) (hc : ¬ c = '\\') :
    hasMalformedU (c :: rest) = hasMalformedU rest := by
  rw [hasMalformedU.eq_def]
  simp [hc]

/-- Joint induction for C6: `unescape` errors (with exactly its `line_number`
argument) precisely when the amended malformed-escape predicate holds, and
returns `Ok` otherwise.  Strong induction on the input length (the `\u` case
consumes six characters). -/
theorem unescape_total_cases : ∀ (N : Nat) (s : List Char), s.length ≤ N → ∀ ln : Nat,
    (hasMalformedU s = true ∧ unescape s ln = Except.error ln) ∨
    (hasMalformedU s = false ∧ ∃ r, unescape s ln = Except.ok r) := by
  intro N
  induction N with
  | zero =>
    intro s hs ln
    match s with
    | [] => exact Or.inr ⟨rfl, [], rfl⟩
    | _ :: _ => simp at hs
  | succ N ih =>
    intro s hs ln
    match s with
    | [] => exact Or.inr ⟨rfl, [], rfl⟩
    | c :: rest =>
      by_cases hc : c = '\\'
      · subst hc
        match rest with
        | [] => exact Or.inr ⟨rfl, ['\x00'], rfl⟩
        | e :: t =>
          by_cases he : e = 'u'
          · subst he
            match t with
            | a :: b :: c2 :: d :: t2 =>
              cases hfr : fromStrRadix16? [a, b, c2, d] with
              | none =>
                refine Or.inl ⟨?_, ?_⟩
                · rw [hasMalformedU_bs_u, hfr]
                · rw [unescape_bs_u, hfr]
              | some v =>
                by_cases hsur : 0xD800 ≤ v ∧ v ≤ 0xDFFF
                · refine Or.inl ⟨?_, ?_⟩
                  · rw [hasMalformedU_bs_u, hfr]
                    simp [hsur]
                  · rw [unescape_bs_u, hfr]
                    simp [hsur]
                · rcases ih t2 (by simp at hs ⊢; omega) ln with ⟨hb, hu⟩ | ⟨hb, r, hu⟩
                  · refine Or.inl ⟨?_, ?_⟩
                    · rw [hasMalformedU_bs_u, hfr]
                      simp [hsur, hb]
                    · rw [unescape_bs_u, hfr]
                      simp [hsur, hu]
                  · refine Or.inr ⟨?_, Char.ofNat v :: r, ?_⟩
                    · rw [hasMalformedU_bs_u, hfr]
                      simp [hsur, hb]
                    · rw [unescape_bs_u, hfr]
                      simp [hsur, hu]
            | [] => exact Or.inl ⟨rfl, rfl⟩
            | [a] => exact Or.inl ⟨rfl, rfl⟩
            | [a, b] => exact Or.inl ⟨rfl, rfl⟩
            | [a, b, c2] => exact Or.inl ⟨rfl, rfl⟩
          · rcases ih t (by simp at hs ⊢; omega) ln with ⟨hb, hu⟩ | ⟨hb, r, hu⟩
            · refine Or.inl ⟨?_, ?_⟩
              · rw [hasMalformedU_bs_other e t he]
                exact hb
              · rw [unescape_bs_other e t ln he, hu]
            · refine Or.inr ⟨?_, escRepl e :: r, ?_⟩
              · rw [hasMalformedU_bs_other e t he]
                exact hb
              · rw [unescape_bs_other e t ln he, hu]
      · rcases ih rest (by simp at hs ⊢; omega) ln with ⟨hb, hu⟩ | ⟨hb, r, hu⟩
        · refine Or.inl ⟨?_, ?_⟩
          · rw [hasMalformedU_other c rest hc]
            exact hb
          · rw [unescape_other c rest ln hc, hu]
        · refine Or.inr ⟨?_, c :: r, ?_⟩
          · rw [hasMalformedU_other c rest hc]
            exact hb
          · rw [unescape_other c rest ln hc, hu]

/-- Claim C6 (amended): `unescape s n` returns an error — and that error
carries exactly the line number `n` — if and only if the escape scan of `s`
meets a `\u` whose following four characters are missing, do not form a
`u16` hex numeral in the sense of Rust `from_str_radix` (all hex digits, or a
leading `+` sign followed by hex digits), or denote a lone surrogate; on
every other input it returns `Ok`. -/
theorem unescape_error_iff_malformed : ∀ (s : List Char) (n : Nat),
    ((∃ m, unescape s n = Except.error m) ↔ hasMalformedU s = true) ∧
    (∀ m, unescape s n = Except.error m → m = n) := by
  intro s n
  rcases unescape_total_cases s.length s le_rfl n with ⟨hb, hu⟩ | ⟨hb, r, hu⟩
  · refine ⟨⟨fun _ => hb, fun _ => ⟨n, hu⟩⟩, ?_⟩
    intro m hm
    rw [hu] at hm
    exact (Except.error.inj hm).symm
  · constructor
    · constructor
      · rintro ⟨m, hm⟩
        rw [hu] at hm
        exact absurd hm (by simp)
      · intro hbad
        rw [hb] at hbad
        exact absurd hbad (by simp)
    · intro m hm
      rw [hu] at hm
      exact absurd hm (by simp)

theorem unescape_error_iff_malformed_witness :
    hasMalformedU ['\\', 'u'] = true ∧ (3 : Nat) = 3 :=
  ⟨(unescape_error_iff_malformed ['\\', 'u'] 3).1.mp ⟨3, rfl⟩,
   (unescape_error_iff_malformed ['\\', 'u'] 3).2 3 rfl⟩

theorem scanKey_bs (c2 : Char) (t2 : List Char) (hn : ¬ c2 = '\n') :
    scanKey ('\\' :: c2 :: t2) =
      match scanKey t2 with
      | none => none
      | some (k, r) => some ('\\' :: c2 :: k, r) := by
  rw [scanKey.eq_def]
  simp [hn]

theorem scanKey_stop (c : Char) (t : List Char) (hc : ¬ c = '\\')
    (hstop : (c = ':' || c = '=' || isWS c) = true) :
    scanKey (c :: t) = some ([], c :: t) := by
  rw [scanKey.eq_def]
  simp [hc, hstop]

theorem scanKey_chr (c : Char) (t : List Char) (hc : ¬ c = '\\')
    (hstop : ¬ (c = ':' || c = '=' || isWS c) = true) :
    scanKey (c :: t) =
      match scanKey t with
      | none => none
      | some (k, r) => some (c :: k, r) := by
  rw [scanKey.eq_def]
  simp [hc, hstop]

theorem valueOk_bs (c2 : Char) (t2 : List Char) (hn : ¬ c2 = '\n') :
    valueOk ('\\' :: c2 :: t2) = valueOk t2 := by
  rw [valueOk.eq_def]
  simp [hn]

theorem valueOk_chr (c : Char) (t : List Char) (hc : ¬ c = '\\') :
    valueOk (c :: t) = valueOk t := by
  rw [valueOk.eq_def]
  simp [hc]

/-- On LF-free input the key star always succeeds; its unconsumed rest
consists of characters of the input and, when non-empty, starts with a
separator or whitespace character (the only places the star stops). -/
theorem scanKey_no_lf : ∀ (N : Nat) (l : List Char), l.length ≤ N → '\n' ∉ l →
    ∃ k r, scanKey l = some (k, r) ∧ (∀ x ∈ r, x ∈ l) ∧
      (r = [] ∨ ∃ c2 t2, r = c2 :: t2 ∧ (c2 = ':' || c2 = '=' || isWS c2) = true) := by
  intro N
  induction N with
  | zero =>
    intro l hl hnl
    match l with
    | [] => exact ⟨[], [], rfl, by simp, Or.inl rfl⟩
    | _ :: _ => simp at hl
  | succ N ih =>
    intro l hl hnl
    match l with
    | [] => exact ⟨[], [], rfl, by simp, Or.inl rfl⟩
    | c :: t =>
      by_cases hc : c = '\\'
      · subst hc
        match t with
        | [] => exact ⟨['\\'], [], rfl, by simp, Or.inl rfl⟩
        | c2 :: t2 =>
          have hn : ¬ c2 = '\n' := fun h => hnl (by simp [h])
          have hnl2 : '\n' ∉ t2 := fun h => hnl (by simp [h])
          obtain ⟨k, r, hsk, hsub, hhead⟩ := ih t2 (by simp at hl ⊢; omega) hnl2
          refine ⟨'\\' :: c2 :: k, r, ?_, ?_, hhead⟩
          · rw [scanKey_bs c2 t2 hn, hsk]
          · intro x hx
            simp [hsub x hx]
      · by_cases hstop : (c = ':' || c = '=' || isWS c) = true
        · refine ⟨[], c :: t, scanKey_stop c t hc hstop, fun x hx => hx, ?_⟩
          exact Or.inr ⟨c, t, rfl, hstop⟩
        · have hnl2 : '\n' ∉ t := fun h => hnl (by simp [h])
          obtain ⟨k, r, hsk, hsub, hhead⟩ := ih t (by simp at hl ⊢; omega) hnl2
          refine ⟨c :: k, r, ?_, ?_, hhead⟩
          · rw [scanKey_chr c t hc hstop, hsk]
          · intro x hx
            simp [hsub x hx]

/-- On LF-free input the value walk always completes. -/
theorem valueOk_no_lf : ∀ (N : Nat) (l : List Char), l.length ≤ N → '\n' ∉ l →
    valueOk l = true := by
  intro N
  induction N with
  | zero =>
    intro l hl hnl
    match l with
    | [] => rfl
    | _ :: _ => simp at hl
  | succ N ih =>
    intro l hl hnl
    match l with
    | [] => rfl
    | c :: t =>
      by_cases hc : c = '\\'
      · subst hc
        match t with
        | [] => rfl
        | c2 :: t2 =>
          have hn : ¬ c2 = '\n' := fun h => hnl (by simp [h])
          have hnl2 : '\n' ∉ t2 := fun h => hnl (by simp [h])
          rw [valueOk_bs c2 t2 hn]
          exact ih t2 (by simp at hl ⊢; omega) hnl2
      · have hnl2 : '\n' ∉ t := fun h => hnl (by simp [h])
        rw [valueOk_chr c t hc]
        exact ih t (by simp at hl ⊢; omega) hnl2

/-- Claim C7 (amended): on every string containing no LF — in particular on
every logical line, since the natural line splitter consumes every CR and LF
— the tokenizer is total: `LINE_RE` matches and `parse_line` returns a
no-token, `Comment` or `KVPair` result, never reaching its `panic!`
branches.  (`parse_line_fails_on_backslash_lf` shows that totality fails for
arbitrary strings.) -/
theorem parse_line_total_without_lf : ∀ s : List Char, '\n' ∉ s →
    parse_line s ≠ ParsedLine.fail := by
  intro s hnl
  have hdrop : '\n' ∉ s.dropWhile isWS :=
    fun h => hnl ((List.dropWhile_sublist isWS).subset h)
  rw [parse_line.eq_def]
  cases hd : s.dropWhile isWS with
  | nil => simp
  | cons c t =>
    rw [hd] at hdrop
    dsimp only
    obtain ⟨k, r, hsk, hsub, hhead⟩ :=
      scanKey_no_lf (c :: t).length (c :: t) le_rfl hdrop
    by_cases hcm : (c = '#' ∨ c = '!') ∧ (trimWS t).contains '\n' = false
    · rw [if_pos hcm]
      simp
    · rw [if_neg hcm, hsk]
      dsimp only
      cases r with
      | nil => by_cases hk : k = [] <;> simp [hk]
      | cons r0 rt =>
        dsimp only
        have hrmem : '\n' ∉ r0 :: rt := fun h => hdrop (hsub _ h)
        cases hd2 : (r0 :: rt).dropWhile isWS with
        | nil => simp
        | cons c2 t2 =>
          dsimp only
          have hmem2 : '\n' ∉ c2 :: t2 :=
            fun h => hrmem ((List.dropWhile_sublist isWS).subset (hd2 ▸ h))
          by_cases hsep : c2 = ':' ∨ c2 = '='
          · rw [if_pos hsep]
            have hvnl : '\n' ∉ t2.dropWhile isWS := fun h =>
              hmem2 (List.mem_cons_of_mem c2 ((List.dropWhile_sublist isWS).subset h))
            have hv := valueOk_no_lf (t2.dropWhile isWS).length _ le_rfl hvnl
            simp [hv]
          · rw [if_neg hsep]
            rcases hhead with habs | ⟨c3, t3, heq, hst⟩
            · exact absurd habs (by simp)
            · injection heq with e1 e2
              subst e1
              subst e2
              have hst2 : (r0 = ':' ∨ r0 = '=') ∨ isWS r0 = true := by simpa using hst
              by_cases hr0 : r0 = ':' ∨ r0 = '='
              · have hnws : ¬ isWS r0 = true := by
                  rcases hr0 with h | h <;> subst h <;> decide
                rw [List.dropWhile_cons_of_neg hnws] at hd2
                injection hd2 with e3 e4
                subst e3
                subst e4
                exact absurd hr0 hsep
              · have hws : isWS r0 = true := by
                  rcases hst2 with h | h
                  · exact absurd h hr0
                  · exact h
                rw [if_pos hws]
                have hv := valueOk_no_lf (c2 :: t2).length _ le_rfl hmem2
                simp [hv]

theorem parse_line_total_without_lf_witness :
    '\n' ∉ ['a'] ∧ parse_line ['a'] ≠ ParsedLine.fail :=
  ⟨by decide, parse_line_total_without_lf ['a'] (by decide)⟩

theorem isHWS_iff (c : Char) : isHWS c = true ↔ HwsChar c := by
  simp [isHWS, HwsChar, or_assoc]

theorem commentPfxOk_iff (p : List Char) : commentPfxOk p = true ↔ CommentPfxShape p := by
  constructor
  · intro h
    rw [commentPfxOk] at h
    cases hd : p.dropWhile isHWS with
    | nil => rw [hd] at h; simp at h
    | cons c t =>
      rw [hd] at h
      simp only [Bool.and_eq_true, List.all_eq_true] at h
      obtain ⟨hc, hb⟩ := h
      refine ⟨p.takeWhile isHWS, c, t, ?_, ?_, ?_, ?_⟩
      · rw [← hd, List.takeWhile_append_dropWhile]
      · intro x hx
        have hall := List.all_takeWhile (p := isHWS) (l := p)
        rw [List.all_eq_true] at hall
        exact (isHWS_iff x).mp (hall x hx)
      · simpa using hc
      · intro x hx
        simpa using hb x hx
  · rintro ⟨a, c, b, rfl, ha, hc, hb⟩
    rw [commentPfxOk]
    have hnc : ¬ isHWS c = true := by
      rcases hc with rfl | rfl <;> decide
    rw [List.dropWhile_append_of_pos (fun x hx => (isHWS_iff x).mpr (ha x hx)),
        List.dropWhile_cons_of_neg hnc]
    simp only [Bool.and_eq_true, List.all_eq_true]
    constructor
    · simpa using hc
    · intro x hx
      have := hb x hx
      simp [this.1, this.2]

theorem kvSepOk_iff (p : List Char) : kvSepOk p = true ↔ KvSepShape p := by
  constructor
  · intro h
    rw [kvSepOk] at h
    rw [Bool.or_eq_true] at h
    rcases h with h | h
    · cases hd : p.dropWhile isHWS with
      | nil => rw [hd] at h; simp at h
      | cons c t =>
        rw [hd] at h
        simp only [Bool.and_eq_true, List.all_eq_true] at h
        obtain ⟨hc, hb⟩ := h
        refine Or.inr ⟨p.takeWhile isHWS, c, t, ?_, ?_, ?_, ?_⟩
        · rw [← hd, List.takeWhile_append_dropWhile]
        · intro x hx
          have hall := List.all_takeWhile (p := isHWS) (l := p)
          rw [List.all_eq_true] at hall
          exact (isHWS_iff x).mp (hall x hx)
        · simpa using hc
        · intro x hx
          exact (isHWS_iff x).mp (hb x hx)
    · simp only [Bool.and_eq_true, List.all_eq_true] at h
      refine Or.inl ⟨?_, fun x hx => (isHWS_iff x).mp (h.2 x hx)⟩
      intro habs
      rw [habs] at h
      simp at h
  · intro h
    rw [kvSepOk, Bool.or_eq_true]
    rcases h with ⟨hne, hall⟩ | ⟨a, c, b, rfl, ha, hc, hb⟩
    · refine Or.inr ?_
      simp only [Bool.and_eq_true, List.all_eq_true]
      constructor
      · simpa using hne
      · exact fun x hx => (isHWS_iff x).mpr (hall x hx)
    · refine Or.inl ?_
      have hnc : ¬ isHWS c = true := by
        rcases hc with rfl | rfl <;> decide
      rw [List.dropWhile_append_of_pos (fun x hx => (isHWS_iff x).mpr (ha x hx)),
          List.dropWhile_cons_of_neg hnc]
      simp only [Bool.and_eq_true, List.all_eq_true]
      constructor
      · simpa using hc
      · exact fun x hx => (isHWS_iff x).mpr (hb x hx)

/-- Claim C9: `set_comment_prefix` succeeds exactly on prefixes of the form
optional spaces/tabs/form-feeds, then `#` or `!`, then anything excluding CR
and LF; `set_kv_separator` succeeds exactly on one-or-more
spaces/tabs/form-feeds, or a single `:`/`=` with optional such whitespace on
either side; every rejection returns an error whose line number is `None`. -/
theorem writer_config_validation : ∀ (cfg : WriterCfg) (p q : List Char),
    ((∃ cfg2, setCommentPfx cfg p = Except.ok cfg2) ↔ CommentPfxShape p) ∧
    (∀ e, setCommentPfx cfg p = Except.error e → e.lineNumber = none) ∧
    ((∃ cfg2, setKvSep cfg q = Except.ok cfg2) ↔ KvSepShape q) ∧
    (∀ e, setKvSep cfg q = Except.error e → e.lineNumber = none) := by
  intro cfg p q
  refine ⟨?_, ?_, ?_, ?_⟩
  · rw [← commentPfxOk_iff]
    rw [setCommentPfx]
    constructor
    · rintro ⟨cfg2, hc⟩
      by_cases h : commentPfxOk p = true
      · exact h
      · rw [if_neg h] at hc
        exact absurd hc (by simp)
    · intro h
      rw [if_pos h]
      exact ⟨_, rfl⟩
  · intro e he
    rw [setCommentPfx] at he
    by_cases h : commentPfxOk p = true
    · rw [if_pos h] at he
      exact absurd he (by simp)
    · rw [if_neg h] at he
      cases he
      rfl
  · rw [← kvSepOk_iff]
    rw [setKvSep]
    constructor
    · rintro ⟨cfg2, hc⟩
      by_cases h : kvSepOk q = true
      · exact h
      · rw [if_neg h] at hc
        exact absurd hc (by simp)
    · intro h
      rw [if_pos h]
      exact ⟨_, rfl⟩
  · intro e he
    rw [setKvSep] at he
    by_cases h : kvSepOk q = true
    · rw [if_pos h] at he
      exact absurd he (by simp)
    · rw [if_neg h] at he
      cases he
      rfl

theorem writer_config_validation_witness :
    CommentPfxShape ['#'] ∧ KvSepShape [' '] ∧
    (PropsErr.mk none).lineNumber = none :=
  ⟨(writer_config_validation defaultCfg ['#'] [' ']).1.mp
     ⟨{ defaultCfg with commentPfx := ['#'] }, rfl⟩,
   (writer_config_validation defaultCfg ['#'] [' ']).2.2.1.mp
     ⟨{ defaultCfg with kvSep := [' '] }, rfl⟩,
   (writer_config_validation defaultCfg ['x'] ['x']).2.1 ⟨none⟩ rfl⟩

/-- `EncodingWriter::write` never changes `lines_written`, and its errors
(unmappable-escape failure or `flush_buffer` I/O failure) always carry
`Some(lines_written)`. -/
theorem encWrite_cases (cs : Char → Bool) (sb : SinkBehavior) (st : WriterState)
    (d : List Char) :
    (∀ st2, encWrite cs sb st d = Except.ok st2 → st2.linesWritten = st.linesWritten) ∧
    (∀ e, encWrite cs sb st d = Except.error e → e.lineNumber = some st.linesWritten) := by
  rw [encWrite]
  cases encodeChars cs d with
  | error c =>
    exact ⟨fun st2 h => absurd h (by simp), fun e h => by cases h; rfl⟩
  | ok buf =>
    dsimp only
    rw [flushBuffer]
    by_cases h : sb.writeAllOk st.writeCalls = true
    · rw [if_pos h]
      exact ⟨fun st2 h2 => by cases h2; rfl, fun e h2 => absurd h2 (by simp)⟩
    · rw [if_neg h]
      exact ⟨fun st2 h2 => absurd h2 (by simp), fun e h2 => by cases h2; rfl⟩

theorem writeEscaped_cases (cs : Char → Bool) (sb : SinkBehavior) (st : WriterState)
    (s : List Char) :
    (∀ st2, writeEscaped cs sb st s = Except.ok st2 →
      st2.linesWritten = st.linesWritten + 1) ∧
    (∀ e, writeEscaped cs sb st s = Except.error e →
      e.lineNumber = some (st.linesWritten + 1)) := by
  rw [writeEscaped]
  exact ⟨fun st2 h => (encWrite_cases cs sb _ (escape s)).1 st2 h,
         fun e h => (encWrite_cases cs sb _ (escape s)).2 e h⟩

theorem flushBuffer_error (sb : SinkBehavior) (st : WriterState) (buf : List Char) :
    ∀ e, flushBuffer sb st buf = Except.error e → e = ⟨some st.linesWritten⟩ := by
  intro e h
  rw [flushBuffer] at h
  by_cases h1 : sb.writeAllOk st.writeCalls = true
  · rw [if_pos h1] at h
    exact absurd h (by simp)
  · rw [if_neg h1] at h
    cases h
    rfl

theorem writeComment_cases (cs : Char → Bool) (sb : SinkBehavior) (cfg : WriterCfg)
    (st : WriterState) (c : List Char) :
    (∀ st2, writeComment cs sb cfg st c = Except.ok st2 →
      st2.linesWritten = st.linesWritten + 1) ∧
    (∀ e, writeComment cs sb cfg st c = Except.error e →
      e.lineNumber = some (st.linesWritten + 1)) := by
  rw [writeComment]
  cases h1 : encWrite cs sb { st with linesWritten := st.linesWritten + 1 } cfg.commentPfx with
  | error e1 =>
    dsimp only
    refine ⟨fun st2 h => absurd h (by simp), fun e h => ?_⟩
    cases h
    exact (encWrite_cases cs sb _ cfg.commentPfx).2 e1 h1
  | ok st2 =>
    dsimp only
    have hl2 : st2.linesWritten = st.linesWritten + 1 :=
      (encWrite_cases cs sb _ cfg.commentPfx).1 st2 h1
    cases h2 : encWrite cs sb st2 c with
    | error e2 =>
      dsimp only
      refine ⟨fun st3 h => absurd h (by simp), fun e h => ?_⟩
      cases h
      rw [(encWrite_cases cs sb st2 c).2 e2 h2, hl2]
    | ok st3 =>
      dsimp only
      have hl3 : st3.linesWritten = st.linesWritten + 1 :=
        ((encWrite_cases cs sb st2 c).1 st3 h2).trans hl2
      refine ⟨fun st4 h => ?_, fun e h => ?_⟩
      · rw [(encWrite_cases cs sb st3 (eolChars cfg.lineEnding)).1 st4 h, hl3]
      · rw [(encWrite_cases cs sb st3 (eolChars cfg.lineEnding)).2 e h, hl3]

theorem pwWrite_cases (cs : Char → Bool) (sb : SinkBehavior) (cfg : WriterCfg)
    (st : WriterState) (k v : List Char) :
    (∀ st2, pwWrite cs sb cfg st k v = Except.ok st2 →
      st2.linesWritten = st.linesWritten + 2) ∧
    (∀ e, pwWrite cs sb cfg st k v = Except.error e →
      e.lineNumber = some (st.linesWritten + 1) ∨
      e.lineNumber = some (st.linesWritten + 2)) := by
  rw [pwWrite]
  cases h1 : writeEscaped cs sb st k with
  | error e1 =>
    dsimp only
    refine ⟨fun st2 h => absurd h (by simp), fun e h => ?_⟩
    cases h
    exact Or.inl ((writeEscaped_cases cs sb st k).2 e1 h1)
  | ok st1 =>
    dsimp only
    have hl1 : st1.linesWritten = st.linesWritten + 1 :=
      (writeEscaped_cases cs sb st k).1 st1 h1
    cases h2 : encWrite cs sb st1 cfg.kvSep with
    | error e2 =>
      dsimp only
      refine ⟨fun st2 h => absurd h (by simp), fun e h => ?_⟩
      cases h
      refine Or.inl ?_
      rw [(encWrite_cases cs sb st1 cfg.kvSep).2 e2 h2, hl1]
    | ok st2 =>
      dsimp only
      have hl2 : st2.linesWritten = st.linesWritten + 1 :=
        ((encWrite_cases cs sb st1 cfg.kvSep).1 st2 h2).trans hl1
      cases h3 : writeEscaped cs sb st2 v with
      | error e3 =>
        dsimp only
        refine ⟨fun st4 h => absurd h (by simp), fun e h => ?_⟩
        cases h
        refine Or.inr ?_
        rw [(writeEscaped_cases cs sb st2 v).2 e3 h3, hl2]
      | ok st3 =>
        dsimp only
        have hl3 : st3.linesWritten = st.linesWritten + 2 := by
          rw [(writeEscaped_cases cs sb st2 v).1 st3 h3, hl2]
        refine ⟨fun st4 h => ?_, fun e h => ?_⟩
        · rw [(encWrite_cases cs sb st3 (eolChars cfg.lineEnding)).1 st4 h, hl3]
        · refine Or.inr ?_
          rw [(encWrite_cases cs sb st3 (eolChars cfg.lineEnding)).2 e h, hl3]

theorem pwFlush_cases (sb : SinkBehavior) (st : WriterState) :
    ∀ e, pwFlush sb st = Except.error e →
      e.lineNumber = some st.linesWritten ∨ e.lineNumber = none := by
  intro e h
  rw [pwFlush] at h
  cases hfb : flushBuffer sb st [] with
  | error e1 =>
    rw [hfb] at h
    dsimp only at h
    have he : e1 = e := Except.error.inj h
    subst he
    rw [flushBuffer_error sb st [] e1 hfb]
    exact Or.inl rfl
  | ok st1 =>
    rw [hfb] at h
    dsimp only at h
    by_cases h2 : sb.flushOk = true
    · rw [if_pos h2] at h
      exact absurd h (by simp)
    · rw [if_neg h2] at h
      cases h
      exact Or.inr rfl

/-- Claim C10 (amended): the `lines_written` counter starts at 0, is
incremented once at the start of each `write_comment` and twice over each
`write` (once per escaped field); every error produced by the buffered
`write_all` or by the encoder carries `Some` of the counter's current value
(`counter + 1` inside `write_comment`, `counter + 1` or `counter + 2` inside
`write`); but an I/O failure of the sink's own `flush` — reachable from
`flush` and `finish` — carries `None`. -/
theorem writer_error_line_numbers :
    initWriterState.linesWritten = 0 ∧
    (∀ (cs : Char → Bool) (sb : SinkBehavior) (cfg : WriterCfg) (st : WriterState)
       (c : List Char) (st2 : WriterState),
       writeComment cs sb cfg st c = Except.ok st2 →
       st2.linesWritten = st.linesWritten + 1) ∧
    (∀ (cs : Char → Bool) (sb : SinkBehavior) (cfg : WriterCfg) (st : WriterState)
       (c : List Char) (e : PropsErr),
       writeComment cs sb cfg st c = Except.error e →
       e.lineNumber = some (st.linesWritten + 1)) ∧
    (∀ (cs : Char → Bool) (sb : SinkBehavior) (cfg : WriterCfg) (st : WriterState)
       (k v : List Char) (st2 : WriterState),
       pwWrite cs sb cfg st k v = Except.ok st2 →
       st2.linesWritten = st.linesWritten + 2) ∧
    (∀ (cs : Char → Bool) (sb : SinkBehavior) (cfg : WriterCfg) (st : WriterState)
       (k v : List Char) (e : PropsErr),
       pwWrite cs sb cfg st k v = Except.error e →
       e.lineNumber = some (st.linesWritten + 1) ∨
       e.lineNumber = some (st.linesWritten + 2)) ∧
    (∀ (sb : SinkBehavior) (st : WriterState) (e : PropsErr),
       pwFlush sb st = Except.error e →
       e.lineNumber = some st.linesWritten ∨ e.lineNumber = none) ∧
    (∀ (sb : SinkBehavior) (st : WriterState) (e : PropsErr),
       pwFinish sb st = Except.error e →
       e.lineNumber = some st.linesWritten ∨ e.lineNumber = none) :=
  ⟨rfl,
   fun cs sb cfg st c st2 h => (writeComment_cases cs sb cfg st c).1 st2 h,
   fun cs sb cfg st c e h => (writeComment_cases cs sb cfg st c).2 e h,
   fun cs sb cfg st k v st2 h => (pwWrite_cases cs sb cfg st k v).1 st2 h,
   fun cs sb cfg st k v e h => (pwWrite_cases cs sb cfg st k v).2 e h,
   fun sb st e h => pwFlush_cases sb st e h,
   fun sb st e h => pwFlush_cases sb st e h⟩

theorem writer_error_line_numbers_witness :
    (WriterState.mk 1 3 ('#' :: ' ' :: '\n' :: [])).linesWritten =
      initWriterState.linesWritten + 1 ∧
    ((PropsErr.mk (some 1)).lineNumber = some (initWriterState.linesWritten + 1)) ∧
    ((PropsErr.mk none).lineNumber = some initWriterState.linesWritten ∨
      (PropsErr.mk none).lineNumber = none) :=
  ⟨writer_error_line_numbers.2.1 asciiMap sbOk defaultCfg initWriterState [] _ rfl,
   writer_error_line_numbers.2.2.1 asciiMap ⟨fun _ => false, true⟩ defaultCfg
     initWriterState [] ⟨some 1⟩ rfl,
   writer_error_line_numbers.2.2.2.2.2.1 ⟨fun _ => true, false⟩ initWriterState
     ⟨none⟩ rfl⟩

end JavaProps
